import Mathlib

/-!
Verification of the sequence-alignment library (`alignment/sequencealigner.py`):
the alignment accumulator (`SequenceAlignment`), the scoring model
(`SimpleScoring`), and the three dynamic-programming aligners
(`GlobalSequenceAligner` with affine gaps, `StrictGlobalSequenceAligner` with a
linear gap penalty, `LocalSequenceAligner` with affine gaps), together with
their backtrace procedures.

Sequences are modelled as `List Int` of symbol codes.  Mutation of the shared
accumulator during the Python backtrace (push, recurse, pop) is modelled
functionally: each recursive call receives the pushed copy, which is faithful
because `pop` exactly undoes `push` (proved below as claim C10).
-/

namespace PyAlign

/-- Modelled from the spec: the module `alignment/sequence.py` is not part of
the sources; the spec describes the GAP sentinel as "a fixed negative constant,
e.g. -1" denoting "no symbol at this aligned position". -/
def GAP_CODE : Int := -1

/-- Remove the GAP sentinel from a sequence (used to state the round-trip
property of backtrace outputs). -/
def stripGap (l : List Int) : List Int := l.filter (fun x => x ≠ GAP_CODE)

-- Scoring ---------------------------------------------------------------------

/-- The `Scoring`/`GapScoring` interface: a substitution score and the two
per-symbol gap cost functions. -/
structure Scoring where
  score : Int → Int → Int
  gapStart : Int → Int
  gapExtension : Int → Int

/-- `SimpleScoring(matchScore, mismatchScore, gapStartScore, gapExtensionScore)`. -/
def SimpleScoring (matchScore mismatchScore gapStartScore gapExtensionScore : Int) :
    Scoring where
  score a b := if a = b then matchScore else mismatchScore
  gapStart _ := gapStartScore
  gapExtension _ := gapExtensionScore

-- Alignment accumulator -------------------------------------------------------

/-- `SequenceAlignment`: two parallel symbol streams, per-position scores and
running statistics. -/
structure SequenceAlignment where
  first : List Int
  second : List Int
  gap : Int
  scores : List Int
  score : Int
  identicalCount : Int
  similarCount : Int
  gapCount : Int
  preservedCount : Int
  deriving DecidableEq, Repr

/-- `SequenceAlignment.push(firstElement, secondElement, score)`. -/
def SequenceAlignment.push (al : SequenceAlignment) (a b s : Int) : SequenceAlignment :=
  { al with
    first := al.first ++ [a]
    second := al.second ++ [b]
    scores := al.scores ++ [s]
    score := al.score + s
    identicalCount := al.identicalCount + (if a = b then 1 else 0)
    similarCount := al.similarCount + (if s > 0 then 1 else 0)
    gapCount := al.gapCount + (if a = al.gap ∨ b = al.gap then 1 else 0)
    preservedCount := al.preservedCount + (if a = al.gap ∨ b = al.gap then 0 else 1) }

/-- `SequenceAlignment.pop()`: removes the last pushed pair and undoes the
statistics updates; `none` models the `IndexError` on an empty accumulator. -/
def SequenceAlignment.pop (al : SequenceAlignment) :
    Option ((Int × Int) × SequenceAlignment) :=
  match al.first.getLast?, al.second.getLast?, al.scores.getLast? with
  | some a, some b, some s =>
      some ((a, b),
        { al with
          first := al.first.dropLast
          second := al.second.dropLast
          scores := al.scores.dropLast
          score := al.score - s
          identicalCount := al.identicalCount - (if a = b then 1 else 0)
          similarCount := al.similarCount - (if s > 0 then 1 else 0)
          gapCount := al.gapCount - (if a = al.gap ∨ b = al.gap then 1 else 0)
          preservedCount := al.preservedCount - (if a = al.gap ∨ b = al.gap then 0 else 1) })
  | _, _, _ => none

/-- `SequenceAlignment.reversed()`: reverses the two streams; the constructor's
`other` branch copies scores, score and all counts unchanged. -/
def SequenceAlignment.reversed (al : SequenceAlignment) : SequenceAlignment :=
  { al with first := al.first.reverse, second := al.second.reverse }

/-- `SequenceAligner.emptyAlignment`: a fresh accumulator over two empty
(pre-allocated) sequences, with the default GAP sentinel. -/
def emptyAlignment : SequenceAlignment :=
  { first := [], second := [], gap := GAP_CODE, scores := [], score := 0,
    identicalCount := 0, similarCount := 0, gapCount := 0, preservedCount := 0 }

-- Percentage metrics ----------------------------------------------------------

/-- Python exceptions relevant to the metric methods. -/
inductive PyErr where
  | zeroDivision
  | assertionFailed
  deriving DecidableEq, Repr

/-- Python division: raises `ZeroDivisionError` on a zero denominator
(float arithmetic is modelled by rationals). -/
def pyDiv (x y : Rat) : Except PyErr Rat :=
  if y = 0 then .error .zeroDivision else .ok (x / y)

/-- The `try ... except ZeroDivisionError: return 0.0` wrapper. -/
def catchZeroDiv (m : Except PyErr Rat) : Except PyErr Rat :=
  match m with
  | .error .zeroDivision => .ok 0
  | r => r

/-- `SequenceAlignment.__len__`: asserts the two streams have equal length. -/
def SequenceAlignment.pyLen (al : SequenceAlignment) : Except PyErr Nat :=
  if al.first.length = al.second.length then .ok al.first.length
  else .error .assertionFailed

/-- `SequenceAlignment.percentIdentity()`. -/
def SequenceAlignment.percentIdentity (al : SequenceAlignment) : Except PyErr Rat :=
  catchZeroDiv (do
    let n ← al.pyLen
    let q ← pyDiv (al.identicalCount : Rat) (n : Rat)
    pure (q * 100))

/-- `SequenceAlignment.percentPreservedIdentity()`. -/
def SequenceAlignment.percentPreservedIdentity (al : SequenceAlignment) :
    Except PyErr Rat :=
  catchZeroDiv (do
    let q ← pyDiv (al.identicalCount : Rat) (al.preservedCount : Rat)
    pure (q * 100))

/-- `SequenceAlignment.percentSimilarity()`. -/
def SequenceAlignment.percentSimilarity (al : SequenceAlignment) : Except PyErr Rat :=
  catchZeroDiv (do
    let n ← al.pyLen
    let q ← pyDiv (al.similarCount : Rat) (n : Rat)
    pure (q * 100))

/-- `SequenceAlignment.percentPreservedSimilarity()`. -/
def SequenceAlignment.percentPreservedSimilarity (al : SequenceAlignment) :
    Except PyErr Rat :=
  catchZeroDiv (do
    let q ← pyDiv (al.similarCount : Rat) (al.preservedCount : Rat)
    pure (q * 100))

/-- `SequenceAlignment.percentGap()`. -/
def SequenceAlignment.percentGap (al : SequenceAlignment) : Except PyErr Rat :=
  catchZeroDiv (do
    let n ← al.pyLen
    let q ← pyDiv (al.gapCount : Rat) (n : Rat)
    pure (q * 100))

-- DP matrices ----------------------------------------------------------------

/-- The three automaton states: `F` (Match), `IX` (gap in the first sequence),
`IY` (gap in the second sequence). -/
inductive MatrixType where
  | F
  | IX
  | IY
  deriving DecidableEq, Repr

/-- Python `max(a, b, c)`. -/
def max3 (a b c : Int) : Int := max a (max b c)

/-- The list comprehension
`[dir for score, dir in [(prevF, F), (prevIx, IX), (prevIy, IY)] if score == maxScore]`. -/
def argmax3 (vF vIX vIY : Int) : List MatrixType :=
  let m := max3 vF vIX vIY
  (if vF = m then [MatrixType.F] else []) ++
    (if vIX = m then [MatrixType.IX] else []) ++
    (if vIY = m then [MatrixType.IY] else [])

-- GlobalSequenceAligner: affine-gap global (Gotoh) fill ------------------------

/-- Fuel-indexed core of `GlobalSequenceAligner.computeAlignmentMatrix` (every
recursive call strictly decreases `i + j`, so fuel `i + j + 1` computes the
cell; the fuel makes the recursion structural and kernel-reducible). -/
def affScoreFuel (sc : Scoring) (fst snd : List Int) :
    Nat → MatrixType → Nat → Nat → Int
  | 0, _, _, _ => 0
  | _ + 1, _, 0, _ => 0
  | _ + 1, _, _ + 1, 0 => 0
  | fuel + 1, .F, i + 1, j + 1 =>
      max3 (affScoreFuel sc fst snd fuel .F i j) (affScoreFuel sc fst snd fuel .IX i j)
          (affScoreFuel sc fst snd fuel .IY i j) +
        sc.score (fst.getD i 0) (snd.getD j 0)
  | fuel + 1, .IX, i + 1, j + 1 =>
      if i + 1 = fst.length then
        max3 (affScoreFuel sc fst snd fuel .F (i + 1) j)
          (affScoreFuel sc fst snd fuel .IX (i + 1) j)
          (affScoreFuel sc fst snd fuel .IY (i + 1) j)
      else
        max3 (affScoreFuel sc fst snd fuel .F (i + 1) j + sc.gapStart (snd.getD j 0))
            (affScoreFuel sc fst snd fuel .IX (i + 1) j)
            (affScoreFuel sc fst snd fuel .IY (i + 1) j + sc.gapStart (snd.getD j 0)) +
          sc.gapExtension (snd.getD j 0)
  | fuel + 1, .IY, i + 1, j + 1 =>
      if j + 1 = snd.length then
        max3 (affScoreFuel sc fst snd fuel .F i (j + 1))
          (affScoreFuel sc fst snd fuel .IX i (j + 1))
          (affScoreFuel sc fst snd fuel .IY i (j + 1))
      else
        max3 (affScoreFuel sc fst snd fuel .F i (j + 1) + sc.gapStart (fst.getD i 0))
            (affScoreFuel sc fst snd fuel .IX i (j + 1) + sc.gapStart (fst.getD i 0))
            (affScoreFuel sc fst snd fuel .IY i (j + 1)) +
          sc.gapExtension (fst.getD i 0)

/-- `GlobalSequenceAligner.computeAlignmentMatrix`: score of state `t` at cell
`(i, j)` of the `(len(first)+1) × (len(second)+1)` matrix.  Cells with `i = 0`
or `j = 0` keep the default value `0` (the fill loops start at 1); the row
`i = len(first)` and the column `j = len(second)` use the "free trailing gap"
branches of the source. -/
def affScore (sc : Scoring) (fst snd : List Int) (t : MatrixType) (i j : Nat) : Int :=
  affScoreFuel sc fst snd (i + j + 1) t i j

/-- `GlobalSequenceAligner.computeAlignmentMatrix`: direction (tied predecessor
states) of state `t` at cell `(i, j)`; boundary cells keep the default `[]`. -/
def affDir (sc : Scoring) (fst snd : List Int) : MatrixType → Nat → Nat → List MatrixType
  | _, 0, _ => []
  | _, _ + 1, 0 => []
  | .F, i + 1, j + 1 =>
      argmax3 (affScore sc fst snd .F i j) (affScore sc fst snd .IX i j)
        (affScore sc fst snd .IY i j)
  | .IX, i + 1, j + 1 =>
      if i + 1 = fst.length then
        argmax3 (affScore sc fst snd .F (i + 1) j) (affScore sc fst snd .IX (i + 1) j)
          (affScore sc fst snd .IY (i + 1) j)
      else
        argmax3 (affScore sc fst snd .F (i + 1) j + sc.gapStart (snd.getD j 0))
          (affScore sc fst snd .IX (i + 1) j)
          (affScore sc fst snd .IY (i + 1) j + sc.gapStart (snd.getD j 0))
  | .IY, i + 1, j + 1 =>
      if j + 1 = snd.length then
        argmax3 (affScore sc fst snd .F i (j + 1)) (affScore sc fst snd .IX i (j + 1))
          (affScore sc fst snd .IY i (j + 1))
      else
        argmax3 (affScore sc fst snd .F i (j + 1) + sc.gapStart (fst.getD i 0))
          (affScore sc fst snd .IX i (j + 1) + sc.gapStart (fst.getD i 0))
          (affScore sc fst snd .IY i (j + 1))

/-- `GlobalSequenceAligner.bestScore`: maximum of the three states at the last
cell `(len(first), len(second))`. -/
def globalBestScore (sc : Scoring) (fst snd : List Int) : Int :=
  max3 (affScore sc fst snd .F fst.length snd.length)
    (affScore sc fst snd .IX fst.length snd.length)
    (affScore sc fst snd .IY fst.length snd.length)

/-- `GlobalSequenceAligner.backtraceFrom`, fuel-indexed (the recursion strictly
decreases `i + j`, so any fuel above `i + j` computes the full result).
Terminates when `i = 0` or `j = 0`, appending the reversed accumulator exactly
when the current state is `F`; in state `IX` on the last row (and `IY` on the
last column) the trailing gap is free: nothing is pushed and the step is taken
only when the score is unchanged. -/
def affBTF (sc : Scoring) (fast : Bool) (fst snd : List Int) :
    Nat → Nat → Nat → MatrixType → SequenceAlignment → List SequenceAlignment
  | 0, _, _, _, _ => []
  | _ + 1, 0, _, cur, al =>
      if cur = .F then [al.reversed] else []
  | _ + 1, _ + 1, 0, cur, al =>
      if cur = .F then [al.reversed] else []
  | fuel + 1, i + 1, j + 1, cur, al =>
      let allDirections := affDir sc fst snd cur (i + 1) (j + 1)
      let directions := if fast then allDirections.take 1 else allDirections
      let c := affScore sc fst snd cur (i + 1) (j + 1)
      let a := fst.getD i 0
      let b := snd.getD j 0
      match cur with
      | .F =>
          directions.flatMap fun d =>
            affBTF sc fast fst snd fuel i j d
              (al.push a b (c - affScore sc fst snd d i j))
      | .IX =>
          if i + 1 = fst.length then
            directions.flatMap fun d =>
              if c = affScore sc fst snd d (i + 1) j then
                affBTF sc fast fst snd fuel (i + 1) j d al
              else []
          else
            directions.flatMap fun d =>
              affBTF sc fast fst snd fuel (i + 1) j d
                (al.push al.gap b (c - affScore sc fst snd d (i + 1) j))
      | .IY =>
          if j + 1 = snd.length then
            directions.flatMap fun d =>
              if c = affScore sc fst snd d i (j + 1) then
                affBTF sc fast fst snd fuel i (j + 1) d al
              else []
          else
            directions.flatMap fun d =>
              affBTF sc fast fst snd fuel i (j + 1) d
                (al.push a al.gap (c - affScore sc fst snd d i (j + 1)))

/-- The terminal cells (with their states) visited by the recursion of
`GlobalSequenceAligner.backtraceFrom`: same recursion structure as `affBTF`,
recording the base-case cells instead of building alignments. -/
def affTerminals (sc : Scoring) (fast : Bool) (fst snd : List Int) :
    Nat → Nat → Nat → MatrixType → List (Nat × Nat × MatrixType)
  | 0, _, _, _ => []
  | _ + 1, 0, j, cur => [(0, j, cur)]
  | _ + 1, i + 1, 0, cur => [(i + 1, 0, cur)]
  | fuel + 1, i + 1, j + 1, cur =>
      let allDirections := affDir sc fst snd cur (i + 1) (j + 1)
      let directions := if fast then allDirections.take 1 else allDirections
      let c := affScore sc fst snd cur (i + 1) (j + 1)
      match cur with
      | .F =>
          directions.flatMap fun d => affTerminals sc fast fst snd fuel i j d
      | .IX =>
          if i + 1 = fst.length then
            directions.flatMap fun d =>
              if c = affScore sc fst snd d (i + 1) j then
                affTerminals sc fast fst snd fuel (i + 1) j d
              else []
          else
            directions.flatMap fun d => affTerminals sc fast fst snd fuel (i + 1) j d
      | .IY =>
          if j + 1 = snd.length then
            directions.flatMap fun d =>
              if c = affScore sc fst snd d i (j + 1) then
                affTerminals sc fast fst snd fuel i (j + 1) d
              else []
          else
            directions.flatMap fun d => affTerminals sc fast fst snd fuel i (j + 1) d

/-- `GlobalSequenceAligner.backtrace`: start a descent at `(m-1, n-1)` from each
state whose score there reaches the best score (only the first such state in
fast mode). -/
def globalBacktrace (sc : Scoring) (fast : Bool) (fst snd : List Int) :
    List SequenceAlignment :=
  let best := globalBestScore sc fst snd
  let bestTypes := [MatrixType.F, MatrixType.IX, MatrixType.IY].filter fun t =>
    affScore sc fst snd t fst.length snd.length ≥ best
  let types := if fast then bestTypes.take 1 else bestTypes
  types.flatMap fun t =>
    affBTF sc fast fst snd (fst.length + snd.length + 1) fst.length snd.length t
      emptyAlignment

-- StrictGlobalSequenceAligner: linear-gap global (Needleman-Wunsch) -----------

/-- `StrictGlobalSequenceAligner.computeAlignmentMatrix`: single-state matrix
with boundary `F(i,0) = i·gap`, `F(0,j) = j·gap` and recurrence
`F(i,j) = max(diag + score, left + gap, up + gap)`. -/
def strictScoreFuel (sc : Scoring) (gapScore : Int) (fst snd : List Int) :
    Nat → Nat → Nat → Int
  | 0, _, _ => 0
  | _ + 1, 0, 0 => 0
  | fuel + 1, i + 1, 0 => strictScoreFuel sc gapScore fst snd fuel i 0 + gapScore
  | fuel + 1, 0, j + 1 => strictScoreFuel sc gapScore fst snd fuel 0 j + gapScore
  | fuel + 1, i + 1, j + 1 =>
      max3
        (strictScoreFuel sc gapScore fst snd fuel i j +
          sc.score (fst.getD i 0) (snd.getD j 0))
        (strictScoreFuel sc gapScore fst snd fuel (i + 1) j + gapScore)
        (strictScoreFuel sc gapScore fst snd fuel i (j + 1) + gapScore)

/-- `StrictGlobalSequenceAligner.computeAlignmentMatrix`: the cell `(i, j)` of
the single-state matrix. -/
def strictScore (sc : Scoring) (gapScore : Int) (fst snd : List Int) (i j : Nat) : Int :=
  strictScoreFuel sc gapScore fst snd (i + j + 1) i j

/-- `StrictGlobalSequenceAligner.bestScore`: the value at the last cell. -/
def strictBestScore (sc : Scoring) (gapScore : Int) (fst snd : List Int) : Int :=
  strictScore sc gapScore fst snd fst.length snd.length

/-- `StrictGlobalSequenceAligner.backtraceFrom`, fuel-indexed.  Terminates at
`(0, 0)`.  The gap-in-second check (`first[i-1]` against a gap) comes first and
returns early when it fires; the gap-in-first check and the diagonal check are
then each explored whenever their score equations hold. -/
def strictBTF (sc : Scoring) (gapScore : Int) (fst snd : List Int) :
    Nat → Nat → Nat → SequenceAlignment → List SequenceAlignment
  | 0, _, _, _ => []
  | fuel + 1, i, j, al =>
      if i = 0 ∧ j = 0 then [al.reversed]
      else
        let c := strictScore sc gapScore fst snd i j
        if i ≠ 0 ∧ c = strictScore sc gapScore fst snd (i - 1) j + gapScore then
          strictBTF sc gapScore fst snd fuel (i - 1) j
            (al.push (fst.getD (i - 1) 0) al.gap
              (c - strictScore sc gapScore fst snd (i - 1) j))
        else
          (if j ≠ 0 ∧ c = strictScore sc gapScore fst snd i (j - 1) + gapScore then
            strictBTF sc gapScore fst snd fuel i (j - 1)
              (al.push al.gap (snd.getD (j - 1) 0)
                (c - strictScore sc gapScore fst snd i (j - 1)))
          else []) ++
          (if i ≠ 0 ∧ j ≠ 0 ∧
              c = strictScore sc gapScore fst snd (i - 1) (j - 1) +
                sc.score (fst.getD (i - 1) 0) (snd.getD (j - 1) 0) then
            strictBTF sc gapScore fst snd fuel (i - 1) (j - 1)
              (al.push (fst.getD (i - 1) 0) (snd.getD (j - 1) 0)
                (c - strictScore sc gapScore fst snd (i - 1) (j - 1)))
          else [])

/-- `StrictGlobalSequenceAligner.backtrace`. -/
def strictBacktrace (sc : Scoring) (gapScore : Int) (fst snd : List Int) :
    List SequenceAlignment :=
  strictBTF sc gapScore fst snd (fst.length + snd.length + 1) fst.length snd.length
    emptyAlignment

/-- The linear-gap backtrace as the spec describes it (for comparison with the
source's `strictBTF`): candidate moves checked in the order gap-in-first
(second-sequence symbol against a gap), then gap-in-second, then diagonal, with
only the first move whose source score plus transition cost reproduces the
cell's value followed. -/
def strictClaimBTF (sc : Scoring) (gapScore : Int) (fst snd : List Int) :
    Nat → Nat → Nat → SequenceAlignment → List SequenceAlignment
  | 0, _, _, _ => []
  | fuel + 1, i, j, al =>
      if i = 0 ∧ j = 0 then [al.reversed]
      else
        let c := strictScore sc gapScore fst snd i j
        if j ≠ 0 ∧ c = strictScore sc gapScore fst snd i (j - 1) + gapScore then
          strictClaimBTF sc gapScore fst snd fuel i (j - 1)
            (al.push al.gap (snd.getD (j - 1) 0)
              (c - strictScore sc gapScore fst snd i (j - 1)))
        else if i ≠ 0 ∧ c = strictScore sc gapScore fst snd (i - 1) j + gapScore then
          strictClaimBTF sc gapScore fst snd fuel (i - 1) j
            (al.push (fst.getD (i - 1) 0) al.gap
              (c - strictScore sc gapScore fst snd (i - 1) j))
        else if i ≠ 0 ∧ j ≠ 0 ∧
            c = strictScore sc gapScore fst snd (i - 1) (j - 1) +
              sc.score (fst.getD (i - 1) 0) (snd.getD (j - 1) 0) then
          strictClaimBTF sc gapScore fst snd fuel (i - 1) (j - 1)
            (al.push (fst.getD (i - 1) 0) (snd.getD (j - 1) 0)
              (c - strictScore sc gapScore fst snd (i - 1) (j - 1)))
        else []

/-- The whole-backtrace form of `strictClaimBTF`. -/
def strictClaimBacktrace (sc : Scoring) (gapScore : Int) (fst snd : List Int) :
    List SequenceAlignment :=
  strictClaimBTF sc gapScore fst snd (fst.length + snd.length + 1) fst.length
    snd.length emptyAlignment

-- LocalSequenceAligner: affine-gap local (Smith-Waterman/Gotoh) ---------------

/-- `-sys.maxsize` on 64-bit CPython: the large-negative sentinel used for
impossible boundary states. -/
def pyMinInt : Int := -9223372036854775807

/-- `LocalSequenceAligner.__init__` forces the aligner-level gap parameters to
zero (`super().__init__(scoring, 0, 0)`); they appear in the boundary
initialisation formulas. -/
def localGapScore : Int := 0

/-- The aligner-level gap extension parameter, likewise fixed at zero. -/
def localGapExtensionScore : Int := 0

/-- `LocalSequenceAligner.computeAlignmentMatrix`: score of state `t` at
`(i, j)`.  Boundary rows and columns use the sentinel for impossible states and
`max(0, gapScore + k·gapExtensionScore)` for the reachable gap state; interior
`F` cells are floored at 0. -/
def localScoreFuel (sc : Scoring) (fst snd : List Int) :
    Nat → MatrixType → Nat → Nat → Int
  | 0, _, _, _ => 0
  | _ + 1, .F, 0, 0 => 0
  | _ + 1, .IX, 0, 0 => pyMinInt
  | _ + 1, .IY, 0, 0 => pyMinInt
  | _ + 1, .F, _ + 1, 0 => pyMinInt
  | _ + 1, .IX, _ + 1, 0 => pyMinInt
  | _ + 1, .IY, i + 1, 0 => max 0 (localGapScore + (↑(i + 1)) * localGapExtensionScore)
  | _ + 1, .F, 0, _ + 1 => pyMinInt
  | _ + 1, .IX, 0, j + 1 => max 0 (localGapScore + (↑(j + 1)) * localGapExtensionScore)
  | _ + 1, .IY, 0, _ + 1 => pyMinInt
  | fuel + 1, .F, i + 1, j + 1 =>
      max 0
        (max3 (localScoreFuel sc fst snd fuel .F i j)
            (localScoreFuel sc fst snd fuel .IX i j)
            (localScoreFuel sc fst snd fuel .IY i j) +
          sc.score (fst.getD i 0) (snd.getD j 0))
  | fuel + 1, .IX, i + 1, j + 1 =>
      max 0
        (max3 (localScoreFuel sc fst snd fuel .F (i + 1) j + sc.gapStart (snd.getD j 0))
            (localScoreFuel sc fst snd fuel .IX (i + 1) j)
            (localScoreFuel sc fst snd fuel .IY (i + 1) j + sc.gapStart (snd.getD j 0)) +
          sc.gapExtension (snd.getD j 0))
  | fuel + 1, .IY, i + 1, j + 1 =>
      max 0
        (max3 (localScoreFuel sc fst snd fuel .F i (j + 1) + sc.gapStart (fst.getD i 0))
            (localScoreFuel sc fst snd fuel .IX i (j + 1) + sc.gapStart (fst.getD i 0))
            (localScoreFuel sc fst snd fuel .IY i (j + 1)) +
          sc.gapExtension (fst.getD i 0))

/-- `LocalSequenceAligner.computeAlignmentMatrix`: score of state `t` at
`(i, j)` (wrapper supplying sufficient fuel). -/
def localScore (sc : Scoring) (fst snd : List Int) (t : MatrixType) (i j : Nat) : Int :=
  localScoreFuel sc fst snd (i + j + 1) t i j

/-- `LocalSequenceAligner.computeAlignmentMatrix`: directions.  The `F`
direction list is truncated to one representative when the best predecessor
score is not positive. -/
def localDir (sc : Scoring) (fst snd : List Int) : MatrixType → Nat → Nat → List MatrixType
  | .IY, _ + 1, 0 => [MatrixType.IY]
  | .IX, 0, _ + 1 => [MatrixType.IX]
  | _, 0, _ => []
  | _, _ + 1, 0 => []
  | .F, i + 1, j + 1 =>
      let maxScore :=
        max3 (localScore sc fst snd .F i j) (localScore sc fst snd .IX i j)
          (localScore sc fst snd .IY i j)
      let dirAb :=
        argmax3 (localScore sc fst snd .F i j) (localScore sc fst snd .IX i j)
          (localScore sc fst snd .IY i j)
      if maxScore > 0 then dirAb else dirAb.take 1
  | .IX, i + 1, j + 1 =>
      argmax3 (localScore sc fst snd .F (i + 1) j + sc.gapStart (snd.getD j 0))
        (localScore sc fst snd .IX (i + 1) j)
        (localScore sc fst snd .IY (i + 1) j + sc.gapStart (snd.getD j 0))
  | .IY, i + 1, j + 1 =>
      argmax3 (localScore sc fst snd .F i (j + 1) + sc.gapStart (fst.getD i 0))
        (localScore sc fst snd .IX i (j + 1) + sc.gapStart (fst.getD i 0))
        (localScore sc fst snd .IY i (j + 1))

/-- Maximum of a nonempty list of integers (head as the seed). -/
def listMax : List Int → Int
  | [] => 0
  | x :: xs => xs.foldl max x

/-- `AlignmentMatrix.max`: the maximum over all three matrices and all cells of
the `(len(first)+1) × (len(second)+1)` grid; `LocalSequenceAligner.bestScore`
returns it. -/
def localBestScore (sc : Scoring) (fst snd : List Int) : Int :=
  listMax ((List.range (fst.length + 1)).flatMap fun i =>
    (List.range (snd.length + 1)).flatMap fun j =>
      [localScore sc fst snd .F i j, localScore sc fst snd .IX i j,
        localScore sc fst snd .IY i j])

/-- `LocalSequenceAligner.backtraceFrom`, fuel-indexed: appends the reversed
accumulator exactly on reaching a cell whose score is 0, otherwise descends
into every recorded predecessor. -/
def localBTF (sc : Scoring) (fst snd : List Int) :
    Nat → Nat → Nat → MatrixType → SequenceAlignment → List SequenceAlignment
  | 0, _, _, _, _ => []
  | fuel + 1, i, j, cur, al =>
      if localScore sc fst snd cur i j = 0 then [al.reversed]
      else
        let directions := localDir sc fst snd cur i j
        let c := localScore sc fst snd cur i j
        let a := fst.getD (i - 1) 0
        let b := snd.getD (j - 1) 0
        match cur with
        | .F =>
            directions.flatMap fun d =>
              localBTF sc fst snd fuel (i - 1) (j - 1) d
                (al.push a b (c - localScore sc fst snd d (i - 1) (j - 1)))
        | .IX =>
            directions.flatMap fun d =>
              localBTF sc fst snd fuel i (j - 1) d
                (al.push al.gap b (c - localScore sc fst snd d i (j - 1)))
        | .IY =>
            directions.flatMap fun d =>
              localBTF sc fst snd fuel (i - 1) j d
                (al.push a al.gap (c - localScore sc fst snd d (i - 1) j))

/-- `LocalSequenceAligner.backtrace`: threshold is the caller's `minScore` when
supplied, otherwise the grid-wide best score; a descent starts at every cell
whose `F` score reaches the threshold. -/
def localBacktrace (sc : Scoring) (minScore : Option Int) (fst snd : List Int) :
    List SequenceAlignment :=
  let threshold :=
    match minScore with
    | none => localBestScore sc fst snd
    | some s => s
  (List.range (fst.length + 1)).flatMap fun i =>
    (List.range (snd.length + 1)).flatMap fun j =>
      if localScore sc fst snd .F i j ≥ threshold then
        localBTF sc fst snd (fst.length + snd.length + 1) i j .F emptyAlignment
      else []

-- Concrete scoring models used in the counterexamples and witnesses ------------

/-- The example scoring of the repository's README usage (match 2, mismatch -1). -/
def scoringBasic : Scoring := SimpleScoring 2 (-1) 0 0

/-- A scoring with equal match and mismatch scores, producing ties. -/
def scoringTies : Scoring := SimpleScoring 2 2 0 0

/-- A scoring where every substitution is penalised. -/
def scoringAllMismatch : Scoring := SimpleScoring (-5) (-5) 0 0

/-- A scoring with positive gap-open cost, reaching the local floor through a
positive tied predecessor. -/
def scoringFloor : Scoring := SimpleScoring 3 (-5) 2 1

/-- An affine scoring with gap-open -3 and gap-extension -1. -/
def scoringAffine : Scoring := SimpleScoring 2 (-1) (-3) (-1)

-- Helper lemmas ----------------------------------------------------------------

theorem affScore_row_zero (sc : Scoring) (fst snd : List Int) (t : MatrixType)
    (j : Nat) : affScore sc fst snd t 0 j = 0 := by cases t <;> rfl

theorem affScore_col_zero (sc : Scoring) (fst snd : List Int) (t : MatrixType)
    (i : Nat) : affScore sc fst snd t (i + 1) 0 = 0 := by cases t <;> rfl

theorem catchZeroDiv_ne_zeroDivision (m : Except PyErr Rat) :
    catchZeroDiv m ≠ Except.error PyErr.zeroDivision := by
  cases m with
  | ok v => simp [catchZeroDiv]
  | error e => cases e <;> simp [catchZeroDiv]

theorem max3_cases (a b c : Int) : max3 a b c = a ∨ max3 a b c = b ∨ max3 a b c = c := by
  unfold max3
  rcases le_total a (max b c) with h | h
  · rcases le_total b c with h' | h'
    · right; right; rw [max_eq_right h, max_eq_right h']
    · right; left; rw [max_eq_right h, max_eq_left h']
  · left; exact max_eq_left h

theorem localScoreFuel_congr (sc : Scoring) (fst snd : List Int) :
    ∀ f g t i j, i + j < f → i + j < g →
      localScoreFuel sc fst snd f t i j = localScoreFuel sc fst snd g t i j := by
  intro f
  induction f with
  | zero => intro g t i j hf _; exact absurd hf (Nat.not_lt_zero _)
  | succ f ih =>
    intro g t i j hf hg
    cases g with
    | zero => exact absurd hg (Nat.not_lt_zero _)
    | succ g =>
      cases t <;> cases i <;> cases j <;> simp only [localScoreFuel] <;>
        rw [ih g _ _ _ (by omega) (by omega), ih g _ _ _ (by omega) (by omega),
          ih g _ _ _ (by omega) (by omega)]

theorem localScore_succ_succ_F (sc : Scoring) (fst snd : List Int) (i j : Nat) :
    localScore sc fst snd .F (i + 1) (j + 1) =
      max 0
        (max3 (localScore sc fst snd .F i j) (localScore sc fst snd .IX i j)
            (localScore sc fst snd .IY i j) +
          sc.score (fst.getD i 0) (snd.getD j 0)) := by
  simp only [localScore, localScoreFuel]
  rw [localScoreFuel_congr sc fst snd ((i + 1) + (j + 1)) (i + j + 1) .F i j
      (by omega) (by omega),
    localScoreFuel_congr sc fst snd ((i + 1) + (j + 1)) (i + j + 1) .IX i j
      (by omega) (by omega),
    localScoreFuel_congr sc fst snd ((i + 1) + (j + 1)) (i + j + 1) .IY i j
      (by omega) (by omega)]

theorem affBTF_row_zero (sc : Scoring) (fast : Bool) (fst snd : List Int)
    (fuel j : Nat) (cur : MatrixType) (al : SequenceAlignment) :
    affBTF sc fast fst snd (fuel + 1) 0 j cur al =
      if cur = .F then [al.reversed] else [] := by
  cases cur <;> rfl

theorem affBTF_col_zero (sc : Scoring) (fast : Bool) (fst snd : List Int)
    (fuel i : Nat) (cur : MatrixType) (al : SequenceAlignment) :
    affBTF sc fast fst snd (fuel + 1) (i + 1) 0 cur al =
      if cur = .F then [al.reversed] else [] := by
  cases cur <;> rfl

theorem scores_sum_push (al : SequenceAlignment) (a b s : Int)
    (h : al.score = al.scores.sum) :
    (al.push a b s).score = (al.push a b s).scores.sum := by
  simp [SequenceAlignment.push, List.sum_append, h]

theorem scores_sum_reversed (al : SequenceAlignment)
    (h : al.score = al.scores.sum) :
    al.reversed.score = al.reversed.scores.sum := by
  simpa [SequenceAlignment.reversed] using h

theorem affBTF_score_sum (sc : Scoring) (fast : Bool) (fst snd : List Int) :
    ∀ fuel i j cur al, al.score = al.scores.sum →
      ∀ x ∈ affBTF sc fast fst snd fuel i j cur al, x.score = x.scores.sum := by
  intro fuel
  induction fuel with
  | zero => intro i j cur al h x hx; simp [affBTF] at hx
  | succ fuel ih =>
    intro i j cur al h x hx
    match i, j with
    | 0, j =>
      rw [affBTF_row_zero] at hx
      by_cases hc : cur = .F
      · rw [if_pos hc] at hx
        simp only [List.mem_singleton] at hx
        subst hx
        exact scores_sum_reversed al h
      · simp [if_neg hc] at hx
    | i + 1, 0 =>
      rw [affBTF_col_zero] at hx
      by_cases hc : cur = .F
      · rw [if_pos hc] at hx
        simp only [List.mem_singleton] at hx
        subst hx
        exact scores_sum_reversed al h
      · simp [if_neg hc] at hx
    | i + 1, j + 1 =>
      cases cur with
      | F =>
        simp only [affBTF, List.mem_flatMap] at hx
        obtain ⟨d, _, hx⟩ := hx
        exact ih i j d _ (scores_sum_push al _ _ _ h) x hx
      | IX =>
        simp only [affBTF] at hx
        split at hx
        · simp only [List.mem_flatMap] at hx
          obtain ⟨d, _, hx⟩ := hx
          split at hx
          · exact ih (i + 1) j d al h x hx
          · simp at hx
        · simp only [List.mem_flatMap] at hx
          obtain ⟨d, _, hx⟩ := hx
          exact ih (i + 1) j d _ (scores_sum_push al _ _ _ h) x hx
      | IY =>
        simp only [affBTF] at hx
        split at hx
        · simp only [List.mem_flatMap] at hx
          obtain ⟨d, _, hx⟩ := hx
          split at hx
          · exact ih i (j + 1) d al h x hx
          · simp at hx
        · simp only [List.mem_flatMap] at hx
          obtain ⟨d, _, hx⟩ := hx
          exact ih i (j + 1) d _ (scores_sum_push al _ _ _ h) x hx

theorem localBTF_score_sum (sc : Scoring) (fst snd : List Int) :
    ∀ fuel i j cur al, al.score = al.scores.sum →
      ∀ x ∈ localBTF sc fst snd fuel i j cur al, x.score = x.scores.sum := by
  intro fuel
  induction fuel with
  | zero => intro i j cur al h x hx; simp [localBTF] at hx
  | succ fuel ih =>
    intro i j cur al h x hx
    simp only [localBTF] at hx
    split at hx
    · simp only [List.mem_singleton] at hx
      subst hx
      exact scores_sum_reversed al h
    · cases cur with
      | F =>
        simp only [List.mem_flatMap] at hx
        obtain ⟨d, _, hx⟩ := hx
        exact ih _ _ d _ (scores_sum_push al _ _ _ h) x hx
      | IX =>
        simp only [List.mem_flatMap] at hx
        obtain ⟨d, _, hx⟩ := hx
        exact ih _ _ d _ (scores_sum_push al _ _ _ h) x hx
      | IY =>
        simp only [List.mem_flatMap] at hx
        obtain ⟨d, _, hx⟩ := hx
        exact ih _ _ d _ (scores_sum_push al _ _ _ h) x hx

theorem strictBTF_score_sum (sc : Scoring) (gapScore : Int) (fst snd : List Int) :
    ∀ fuel i j al, al.score = al.scores.sum →
      ∀ x ∈ strictBTF sc gapScore fst snd fuel i j al, x.score = x.scores.sum := by
  intro fuel
  induction fuel with
  | zero => intro i j al h x hx; simp [strictBTF] at hx
  | succ fuel ih =>
    intro i j al h x hx
    simp only [strictBTF] at hx
    split at hx
    · simp only [List.mem_singleton] at hx
      subst hx
      exact scores_sum_reversed al h
    · split at hx
      · exact ih _ _ _ (scores_sum_push al _ _ _ h) x hx
      · simp only [List.mem_append] at hx
        rcases hx with hx | hx
        · split at hx
          · exact ih _ _ _ (scores_sum_push al _ _ _ h) x hx
          · simp at hx
        · split at hx
          · exact ih _ _ _ (scores_sum_push al _ _ _ h) x hx
          · simp at hx

theorem stripGap_push_symbol (l : List Int) (x : Int) (hx : x ≠ GAP_CODE) :
    stripGap (l ++ [x]) = stripGap l ++ [x] := by
  simp [stripGap, List.filter_append, hx]

theorem stripGap_push_gap (l : List Int) :
    stripGap (l ++ [GAP_CODE]) = stripGap l := by
  simp [stripGap, List.filter_append]

theorem strictBTF_roundtrip (sc : Scoring) (gapScore : Int) (fst snd : List Int)
    (hg1 : GAP_CODE ∉ fst) (hg2 : GAP_CODE ∉ snd) :
    ∀ fuel i j al, i ≤ fst.length → j ≤ snd.length → al.gap = GAP_CODE →
      stripGap al.first = (fst.drop i).reverse →
      stripGap al.second = (snd.drop j).reverse →
      ∀ x ∈ strictBTF sc gapScore fst snd fuel i j al,
        stripGap x.first = fst ∧ stripGap x.second = snd := by
  intro fuel
  induction fuel with
  | zero => intro i j al _ _ _ _ _ x hx; simp [strictBTF] at hx
  | succ fuel ih =>
    intro i j al hi hj hgap hfirst hsecond x hx
    simp only [strictBTF] at hx
    split at hx
    · rename_i hij
      simp only [List.mem_singleton] at hx
      subst hx
      obtain ⟨rfl, rfl⟩ := hij
      constructor
      · rw [SequenceAlignment.reversed, stripGap, List.filter_reverse, ← stripGap,
          hfirst, List.drop_zero, List.reverse_reverse]
      · rw [SequenceAlignment.reversed, stripGap, List.filter_reverse, ← stripGap,
          hsecond, List.drop_zero, List.reverse_reverse]
    · split at hx
      · rename_i hcond
        obtain ⟨hi0, -⟩ := hcond
        obtain ⟨i, rfl⟩ : ∃ i', i = i' + 1 := ⟨i - 1, by omega⟩
        refine ih i j _ (by omega) hj (by simp [SequenceAlignment.push, hgap]) ?_ ?_ x hx
        · have hlt : i < fst.length := by omega
          have hmem : fst.getD i 0 = fst[i] := List.getD_eq_getElem fst 0 hlt
          rw [SequenceAlignment.push]
          simp only [Nat.add_sub_cancel]
          rw [hmem, stripGap_push_symbol _ _ (fun hc => hg1 (hc ▸ List.getElem_mem hlt)),
            hfirst, List.drop_eq_getElem_cons hlt, List.reverse_cons]
        · rw [SequenceAlignment.push]
          simp only [Nat.add_sub_cancel]
          rw [hgap, stripGap_push_gap, hsecond]
      · simp only [List.mem_append] at hx
        rcases hx with hx | hx
        · split at hx
          · rename_i hcond
            obtain ⟨hj0, -⟩ := hcond
            obtain ⟨j, rfl⟩ : ∃ j', j = j' + 1 := ⟨j - 1, by omega⟩
            refine ih i j _ hi (by omega) (by simp [SequenceAlignment.push, hgap]) ?_ ?_ x hx
            · rw [SequenceAlignment.push]
              simp only [Nat.add_sub_cancel]
              rw [hgap, stripGap_push_gap, hfirst]
            · have hlt : j < snd.length := by omega
              have hmem : snd.getD j 0 = snd[j] := List.getD_eq_getElem snd 0 hlt
              rw [SequenceAlignment.push]
              simp only [Nat.add_sub_cancel]
              rw [hmem, stripGap_push_symbol _ _ (fun hc => hg2 (hc ▸ List.getElem_mem hlt)),
                hsecond, List.drop_eq_getElem_cons hlt, List.reverse_cons]
          · simp at hx
        · split at hx
          · rename_i hcond
            obtain ⟨hi0, hj0, -⟩ := hcond
            obtain ⟨i, rfl⟩ : ∃ i', i = i' + 1 := ⟨i - 1, by omega⟩
            obtain ⟨j, rfl⟩ : ∃ j', j = j' + 1 := ⟨j - 1, by omega⟩
            have hlti : i < fst.length := by omega
            have hltj : j < snd.length := by omega
            refine ih i j _ (by omega) (by omega)
              (by simp [SequenceAlignment.push, hgap]) ?_ ?_ x hx
            · have hmem : fst.getD i 0 = fst[i] := List.getD_eq_getElem fst 0 hlti
              rw [SequenceAlignment.push]
              simp only [Nat.add_sub_cancel]
              rw [hmem, stripGap_push_symbol _ _ (fun hc => hg1 (hc ▸ List.getElem_mem hlti)),
                hfirst, List.drop_eq_getElem_cons hlti, List.reverse_cons]
            · have hmem : snd.getD j 0 = snd[j] := List.getD_eq_getElem snd 0 hltj
              rw [SequenceAlignment.push]
              simp only [Nat.add_sub_cancel]
              rw [hmem, stripGap_push_symbol _ _ (fun hc => hg2 (hc ▸ List.getElem_mem hltj)),
                hsecond, List.drop_eq_getElem_cons hltj, List.reverse_cons]
          · simp at hx

theorem length_flatMap_fn {α β : Type} (l : List α) (f : α → List β) :
    (l.flatMap f).length = (l.map fun d => (f d).length).sum := by
  induction l with
  | nil => rfl
  | cons d l ih => simp [List.flatMap_cons, ih]

theorem length_filter_flatMap {α β : Type} (l : List α) (f : α → List β)
    (p : β → Bool) :
    ((l.flatMap f).filter p).length = (l.map fun d => ((f d).filter p).length).sum := by
  induction l with
  | nil => rfl
  | cons d l ih => simp [List.flatMap_cons, List.filter_append, ih]

theorem affTerminals_row_zero (sc : Scoring) (fast : Bool) (fst snd : List Int)
    (fuel j : Nat) (cur : MatrixType) :
    affTerminals sc fast fst snd (fuel + 1) 0 j cur = [(0, j, cur)] := by
  cases cur <;> rfl

theorem affTerminals_col_zero (sc : Scoring) (fast : Bool) (fst snd : List Int)
    (fuel i : Nat) (cur : MatrixType) :
    affTerminals sc fast fst snd (fuel + 1) (i + 1) 0 cur = [(i + 1, 0, cur)] := by
  cases cur <;> rfl

theorem affTerminals_boundary (sc : Scoring) (fast : Bool) (fst snd : List Int) :
    ∀ fuel i j cur, ∀ t ∈ affTerminals sc fast fst snd fuel i j cur,
      t.1 = 0 ∨ t.2.1 = 0 := by
  intro fuel
  induction fuel with
  | zero => intro i j cur t ht; simp [affTerminals] at ht
  | succ fuel ih =>
    intro i j cur t ht
    match i, j with
    | 0, j =>
      rw [affTerminals_row_zero] at ht
      simp only [List.mem_singleton] at ht
      subst ht
      exact Or.inl rfl
    | i + 1, 0 =>
      rw [affTerminals_col_zero] at ht
      simp only [List.mem_singleton] at ht
      subst ht
      exact Or.inr rfl
    | i + 1, j + 1 =>
      cases cur with
      | F =>
        simp only [affTerminals, List.mem_flatMap] at ht
        obtain ⟨d, -, ht⟩ := ht
        exact ih i j d t ht
      | IX =>
        simp only [affTerminals] at ht
        split at ht <;>
          · simp only [List.mem_flatMap] at ht
            obtain ⟨d, -, ht⟩ := ht
            first
              | exact ih (i + 1) j d t ht
              | · split at ht
                  · exact ih (i + 1) j d t ht
                  · simp at ht
      | IY =>
        simp only [affTerminals] at ht
        split at ht <;>
          · simp only [List.mem_flatMap] at ht
            obtain ⟨d, -, ht⟩ := ht
            first
              | exact ih i (j + 1) d t ht
              | · split at ht
                  · exact ih i (j + 1) d t ht
                  · simp at ht

theorem affBTF_length_eq_terminals (sc : Scoring) (fast : Bool) (fst snd : List Int) :
    ∀ fuel i j cur al,
      (affBTF sc fast fst snd fuel i j cur al).length =
        ((affTerminals sc fast fst snd fuel i j cur).filter
          (fun t => t.2.2 = MatrixType.F)).length := by
  intro fuel
  induction fuel with
  | zero => intro i j cur al; simp [affBTF, affTerminals]
  | succ fuel ih =>
    intro i j cur al
    match i, j with
    | 0, j =>
      rw [affBTF_row_zero, affTerminals_row_zero]
      cases cur <;> simp
    | i + 1, 0 =>
      rw [affBTF_col_zero, affTerminals_col_zero]
      cases cur <;> simp
    | i + 1, j + 1 =>
      cases cur with
      | F =>
        simp only [affBTF, affTerminals]
        rw [length_flatMap_fn, length_filter_flatMap]
        exact congrArg List.sum (List.map_congr_left fun d _ => ih i j d _)
      | IX =>
        simp only [affBTF, affTerminals]
        by_cases hc : i + 1 = fst.length <;>
          simp only [if_pos, if_neg, hc, reduceIte] <;>
          rw [length_flatMap_fn, length_filter_flatMap] <;>
          refine congrArg List.sum (List.map_congr_left fun d _ => ?_)
        · split
          · exact ih _ _ d _
          · simp
        · exact ih (i + 1) j d _
      | IY =>
        simp only [affBTF, affTerminals]
        by_cases hc : j + 1 = snd.length <;>
          simp only [if_pos, if_neg, hc, reduceIte] <;>
          rw [length_flatMap_fn, length_filter_flatMap] <;>
          refine congrArg List.sum (List.map_congr_left fun d _ => ?_)
        · split
          · exact ih _ _ d _
          · simp
        · exact ih i (j + 1) d _

theorem strictScoreFuel_congr (sc : Scoring) (gapScore : Int) (fst snd : List Int) :
    ∀ f g i j, i + j < f → i + j < g →
      strictScoreFuel sc gapScore fst snd f i j =
        strictScoreFuel sc gapScore fst snd g i j := by
  intro f
  induction f with
  | zero => intro g i j hf _; exact absurd hf (Nat.not_lt_zero _)
  | succ f ih =>
    intro g i j hf hg
    cases g with
    | zero => exact absurd hg (Nat.not_lt_zero _)
    | succ g =>
      cases i <;> cases j <;> simp only [strictScoreFuel]
      · rw [ih g _ _ (by omega) (by omega)]
      · rw [ih g _ _ (by omega) (by omega)]
      · rw [ih g _ _ (by omega) (by omega), ih g _ _ (by omega) (by omega),
          ih g _ _ (by omega) (by omega)]

theorem strictScore_row (sc : Scoring) (gapScore : Int) (fst snd : List Int)
    (j : Nat) :
    strictScore sc gapScore fst snd 0 (j + 1) =
      strictScore sc gapScore fst snd 0 j + gapScore := rfl

theorem strictScore_col (sc : Scoring) (gapScore : Int) (fst snd : List Int)
    (i : Nat) :
    strictScore sc gapScore fst snd (i + 1) 0 =
      strictScore sc gapScore fst snd i 0 + gapScore := rfl

theorem strictScore_succ_succ (sc : Scoring) (gapScore : Int) (fst snd : List Int)
    (i j : Nat) :
    strictScore sc gapScore fst snd (i + 1) (j + 1) =
      max3
        (strictScore sc gapScore fst snd i j +
          sc.score (fst.getD i 0) (snd.getD j 0))
        (strictScore sc gapScore fst snd (i + 1) j + gapScore)
        (strictScore sc gapScore fst snd i (j + 1) + gapScore) := by
  simp only [strictScore, strictScoreFuel]
  rw [strictScoreFuel_congr sc gapScore fst snd ((i + 1) + (j + 1)) (i + j + 1) i j
      (by omega) (by omega),
    strictScoreFuel_congr sc gapScore fst snd ((i + 1) + (j + 1)) ((i + 1) + j + 1)
      (i + 1) j (by omega) (by omega),
    strictScoreFuel_congr sc gapScore fst snd ((i + 1) + (j + 1)) (i + (j + 1) + 1)
      i (j + 1) (by omega) (by omega)]

theorem strictBTF_ne_nil (sc : Scoring) (gapScore : Int) (fst snd : List Int) :
    ∀ fuel i j al, i + j < fuel →
      strictBTF sc gapScore fst snd fuel i j al ≠ [] := by
  intro fuel
  induction fuel with
  | zero => intro i j al h; exact absurd h (Nat.not_lt_zero _)
  | succ fuel ih =>
    intro i j al h
    simp only [strictBTF]
    split
    · simp
    · rename_i hij
      split
      · rename_i hcond
        exact ih _ _ _ (by omega)
      · rename_i hnot
        rcases Nat.eq_zero_or_pos i with hi | hi
        · subst hi
          obtain ⟨j, rfl⟩ : ∃ j', j = j' + 1 := ⟨j - 1, by omega⟩
          rw [if_pos ⟨by omega, strictScore_row sc gapScore fst snd j⟩]
          exact List.append_ne_nil_of_left_ne_nil (ih _ _ _ (by omega)) _
        · obtain ⟨i, rfl⟩ : ∃ i', i = i' + 1 := ⟨i - 1, by omega⟩
          rcases Nat.eq_zero_or_pos j with hj | hj
          · subst hj
            exact absurd ⟨by omega, strictScore_col sc gapScore fst snd i⟩ hnot
          · obtain ⟨j, rfl⟩ : ∃ j', j = j' + 1 := ⟨j - 1, by omega⟩
            rcases max3_cases
                (strictScore sc gapScore fst snd i j +
                  sc.score (fst.getD i 0) (snd.getD j 0))
                (strictScore sc gapScore fst snd (i + 1) j + gapScore)
                (strictScore sc gapScore fst snd i (j + 1) + gapScore) with
              hab | hga | hgb
            · refine List.append_ne_nil_of_right_ne_nil _ ?_
              rw [if_pos ⟨by omega, by omega,
                (strictScore_succ_succ sc gapScore fst snd i j).trans hab⟩]
              exact ih _ _ _ (by omega)
            · rw [if_pos ⟨by omega,
                (strictScore_succ_succ sc gapScore fst snd i j).trans hga⟩]
              exact List.append_ne_nil_of_left_ne_nil (ih _ _ _ (by omega)) _
            · exact absurd ⟨by omega,
                (strictScore_succ_succ sc gapScore fst snd i j).trans hgb⟩ hnot

-- Theorems ---------------------------------------------------------------------

/-- Claim C10: for every alignment accumulator and every pushed pair `(a, b)`
with score `s`, `pop` after `push` returns exactly `(a, b)` and restores the
accumulator (both streams, the per-position score list, the total score, and
the identical / similar / gap / preserved counts). -/
theorem push_pop_roundtrip (al : SequenceAlignment) (a b s : Int) :
    (al.push a b s).pop = some ((a, b), al) := by
  simp only [SequenceAlignment.push, SequenceAlignment.pop, List.getLast?_concat,
    List.dropLast_concat, add_sub_cancel_right]

/-- Claim C7: each of the five percentage metrics returns `0.0` when its
denominator (total length for the plain metrics, preserved count for the
preserved variants) is zero, and none of them ever produces a division
error. -/
theorem percent_metrics_safe (al : SequenceAlignment) :
    (al.first.length = al.second.length → al.first.length = 0 →
      al.percentIdentity = Except.ok 0 ∧ al.percentSimilarity = Except.ok 0 ∧
        al.percentGap = Except.ok 0) ∧
    (al.preservedCount = 0 →
      al.percentPreservedIdentity = Except.ok 0 ∧
        al.percentPreservedSimilarity = Except.ok 0) ∧
    al.percentIdentity ≠ Except.error PyErr.zeroDivision ∧
    al.percentSimilarity ≠ Except.error PyErr.zeroDivision ∧
    al.percentGap ≠ Except.error PyErr.zeroDivision ∧
    al.percentPreservedIdentity ≠ Except.error PyErr.zeroDivision ∧
    al.percentPreservedSimilarity ≠ Except.error PyErr.zeroDivision := by
  refine ⟨fun h1 h2 => ?_, fun h => ?_, ?_, ?_, ?_, ?_, ?_⟩
  · have h3 : al.second.length = 0 := by omega
    simp [SequenceAlignment.percentIdentity, SequenceAlignment.percentSimilarity,
      SequenceAlignment.percentGap, SequenceAlignment.pyLen, pyDiv, catchZeroDiv,
      Bind.bind, Except.bind, Functor.map, Except.map, h1, h2, h3]
  · simp [SequenceAlignment.percentPreservedIdentity,
      SequenceAlignment.percentPreservedSimilarity, pyDiv, catchZeroDiv,
      Bind.bind, Except.bind, Functor.map, Except.map, h]
  · exact catchZeroDiv_ne_zeroDivision _
  · exact catchZeroDiv_ne_zeroDivision _
  · exact catchZeroDiv_ne_zeroDivision _
  · exact catchZeroDiv_ne_zeroDivision _
  · exact catchZeroDiv_ne_zeroDivision _

/-- Witness for C7 at the empty accumulator. -/
theorem percent_metrics_safe_witness :
    emptyAlignment.percentIdentity = Except.ok 0 ∧
      emptyAlignment.percentPreservedIdentity = Except.ok 0 :=
  ⟨((percent_metrics_safe emptyAlignment).1 rfl rfl).1,
    ((percent_metrics_safe emptyAlignment).2.1 rfl).1⟩

/-- Claim C2: in the affine-global fill, on the last row (`i = len(first)`)
the `IX` score at `(i, j)` is the plain maximum of the three states at
`(i, j-1)`, with no gap-open and no gap-extension cost added; symmetrically on
the last column (`j = len(second)`) for `IY`. -/
theorem trailing_gap_free (sc : Scoring) (fst snd : List Int) (i j : Nat)
    (hj1 : 1 ≤ j) (hj2 : j ≤ snd.length) (hi1 : 1 ≤ i) (hi2 : i ≤ fst.length) :
    affScore sc fst snd .IX fst.length j =
      max3 (affScore sc fst snd .F fst.length (j - 1))
        (affScore sc fst snd .IX fst.length (j - 1))
        (affScore sc fst snd .IY fst.length (j - 1)) ∧
    affScore sc fst snd .IY i snd.length =
      max3 (affScore sc fst snd .F (i - 1) snd.length)
        (affScore sc fst snd .IX (i - 1) snd.length)
        (affScore sc fst snd .IY (i - 1) snd.length) := by
  obtain ⟨j, rfl⟩ : ∃ j', j = j' + 1 := ⟨j - 1, by omega⟩
  obtain ⟨i, rfl⟩ : ∃ i', i = i' + 1 := ⟨i - 1, by omega⟩
  simp only [Nat.add_sub_cancel]
  constructor
  · rcases hL : fst.length with _ | L
    · omega
    · simp only [affScore, affScoreFuel]
      rw [if_pos hL.symm, show (L + 1) + (j + 1) = (L + 1) + j + 1 from by omega]
  · rcases hM : snd.length with _ | M
    · omega
    · simp only [affScore, affScoreFuel]
      rw [if_pos hM.symm, show (i + 1) + (M + 1) = i + (M + 1) + 1 from by omega]

/-- Witness for C2 at `first = [1, 2]`, `second = [3]`, `i = j = 1`. -/
theorem trailing_gap_free_witness :
    affScore scoringBasic [1, 2] [3] .IX 2 1 =
      max3 (affScore scoringBasic [1, 2] [3] .F 2 0)
        (affScore scoringBasic [1, 2] [3] .IX 2 0)
        (affScore scoringBasic [1, 2] [3] .IY 2 0) ∧
    affScore scoringBasic [1, 2] [3] .IY 1 1 =
      max3 (affScore scoringBasic [1, 2] [3] .F 0 1)
        (affScore scoringBasic [1, 2] [3] .IX 0 1)
        (affScore scoringBasic [1, 2] [3] .IY 0 1) :=
  trailing_gap_free scoringBasic [1, 2] [3] 1 1 (by decide) (by decide) (by decide)
    (by decide)

/-- Claim C4 (amended): in the affine-local fill the `Match` score is
nonnegative at every cell with `i ≥ 1` and `j ≥ 1` and at `(0, 0)`; boundary
cells with exactly one zero index hold the large-negative sentinel instead. -/
theorem local_match_nonneg (sc : Scoring) (fst snd : List Int) (i j : Nat)
    (hi : 1 ≤ i) (hj : 1 ≤ j) :
    0 ≤ localScore sc fst snd .F i j ∧ localScore sc fst snd .F 0 0 = 0 ∧
      localScore sc fst snd .F i 0 = pyMinInt ∧
      localScore sc fst snd .F 0 j = pyMinInt := by
  obtain ⟨i, rfl⟩ : ∃ i', i = i' + 1 := ⟨i - 1, by omega⟩
  obtain ⟨j, rfl⟩ : ∃ j', j = j' + 1 := ⟨j - 1, by omega⟩
  refine ⟨?_, rfl, rfl, rfl⟩
  simp only [localScore, localScoreFuel]
  exact le_max_left 0 _

/-- Witness for C4 (amended) at a concrete cell. -/
theorem local_match_nonneg_witness :
    0 ≤ localScore scoringBasic [1] [1] .F 1 1 ∧
      localScore scoringBasic [1] [1] .F 0 0 = 0 ∧
      localScore scoringBasic [1] [1] .F 1 0 = pyMinInt ∧
      localScore scoringBasic [1] [1] .F 0 1 = pyMinInt :=
  local_match_nonneg scoringBasic [1] [1] 1 1 (by decide) (by decide)

/-- Counterexample to C4 as stated: the boundary cell `(1, 0)` of the local
matrix (a cell with `0 ≤ i ≤ m`, `0 ≤ j ≤ n`) carries the large-negative
sentinel, so its `Match` score is negative. -/
theorem local_match_nonneg_cex :
    localScore scoringBasic [1] [1] .F 1 0 < 0 := by decide

/-- Claim C9 (amended): every interior `Match` cell of the local fill is
`max(0, best predecessor + substitution score)`, and the recorded predecessor
set is truncated to a single representative exactly when the best predecessor
score is not positive (not when the zero floor is applied). -/
theorem local_match_floor_truncation (sc : Scoring) (fst snd : List Int) (i j : Nat) :
    localScore sc fst snd .F (i + 1) (j + 1) =
      max 0
        (max3 (localScore sc fst snd .F i j) (localScore sc fst snd .IX i j)
            (localScore sc fst snd .IY i j) +
          sc.score (fst.getD i 0) (snd.getD j 0)) ∧
    localDir sc fst snd .F (i + 1) (j + 1) =
      (if max3 (localScore sc fst snd .F i j) (localScore sc fst snd .IX i j)
            (localScore sc fst snd .IY i j) > 0 then
        argmax3 (localScore sc fst snd .F i j) (localScore sc fst snd .IX i j)
          (localScore sc fst snd .IY i j)
      else
        (argmax3 (localScore sc fst snd .F i j) (localScore sc fst snd .IX i j)
            (localScore sc fst snd .IY i j)).take 1) :=
  ⟨localScore_succ_succ_F sc fst snd i j, rfl⟩

/-- Counterexample to C9 as stated: at cell `(2, 2)` the zero floor is applied
(the recurrence value is negative), yet all three tied predecessors are
recorded — the predecessor set is not truncated to a single representative. -/
theorem local_floor_truncation_cex :
    localScore scoringFloor [1, 2] [1, 3] .F 2 2 = 0 ∧
    max3 (localScore scoringFloor [1, 2] [1, 3] .F 1 1)
        (localScore scoringFloor [1, 2] [1, 3] .IX 1 1)
        (localScore scoringFloor [1, 2] [1, 3] .IY 1 1) +
      scoringFloor.score 2 3 < 0 ∧
    (localDir scoringFloor [1, 2] [1, 3] .F 2 2).length = 3 := by decide

/-- Claim C5 (amended): aligning an empty first sequence against a nonempty
second one in affine-global mode leaves the fill loops empty, so the best
score is 0 and the backtrace returns exactly one alignment, the empty one. -/
theorem empty_first_global (sc : Scoring) (fast : Bool) (snd : List Int)
    (_hne : snd ≠ []) :
    globalBestScore sc [] snd = 0 ∧
    globalBacktrace sc fast [] snd = [emptyAlignment] := by
  have hb : globalBestScore sc [] snd = 0 := by
    simp [globalBestScore, affScore_row_zero, max3]
  refine ⟨hb, ?_⟩
  cases fast <;>
    simp [globalBacktrace, hb, affScore_row_zero, affBTF_row_zero,
      globalBestScore, max3, List.filter, emptyAlignment, SequenceAlignment.reversed]

/-- Witness for C5 (amended) at the concrete affine scoring. -/
theorem empty_first_global_witness :
    globalBestScore scoringAffine [] [1, 1] = 0 ∧
    globalBacktrace scoringAffine false [] [1, 1] = [emptyAlignment] :=
  empty_first_global scoringAffine false [1, 1] (by decide)

/-- Claim C1 (amended): for every alignment returned by any of the three
backtrace engines, the per-position score contributions sum to the recorded
total score; the GAP-removal round trip (each output stream with GAP removed
equals the corresponding input) holds for the linear-global engine whenever the
inputs do not contain the GAP sentinel, but not in general for the affine
engines. -/
theorem backtrace_score_sum_roundtrip (sc : Scoring) (fast : Bool)
    (gapScore : Int) (ms : Option Int) (fst snd : List Int) :
    (∀ al ∈ globalBacktrace sc fast fst snd, al.score = al.scores.sum) ∧
    (∀ al ∈ localBacktrace sc ms fst snd, al.score = al.scores.sum) ∧
    (∀ al ∈ strictBacktrace sc gapScore fst snd,
      al.score = al.scores.sum ∧
        (GAP_CODE ∉ fst → GAP_CODE ∉ snd →
          stripGap al.first = fst ∧ stripGap al.second = snd)) := by
  refine ⟨?_, ?_, ?_⟩
  · intro al hal
    simp only [globalBacktrace, List.mem_flatMap] at hal
    obtain ⟨t, -, hal⟩ := hal
    exact affBTF_score_sum sc fast fst snd _ _ _ t emptyAlignment rfl al hal
  · intro al hal
    simp only [localBacktrace, List.mem_flatMap] at hal
    obtain ⟨i, -, j, -, hal⟩ := hal
    split at hal
    · exact localBTF_score_sum sc fst snd _ i j .F emptyAlignment rfl al hal
    · simp at hal
  · intro al hal
    simp only [strictBacktrace] at hal
    refine ⟨strictBTF_score_sum sc gapScore fst snd _ _ _ emptyAlignment rfl al hal,
      fun hg1 hg2 => ?_⟩
    exact strictBTF_roundtrip sc gapScore fst snd hg1 hg2 _ _ _ emptyAlignment
      le_rfl le_rfl rfl (by simp [emptyAlignment, stripGap, List.drop_length])
      (by simp [emptyAlignment, stripGap, List.drop_length]) al hal

/-- Witness for C1 (amended): the single alignment returned by the
linear-global backtrace on `[1]` vs `[1]`. -/
theorem backtrace_score_sum_roundtrip_witness :
    ({ first := [1], second := [1], gap := GAP_CODE, scores := [2], score := 2,
       identicalCount := 1, similarCount := 1, gapCount := 0,
       preservedCount := 1 } : SequenceAlignment).score =
        ({ first := [1], second := [1], gap := GAP_CODE, scores := [2], score := 2,
           identicalCount := 1, similarCount := 1, gapCount := 0,
           preservedCount := 1 } : SequenceAlignment).scores.sum ∧
      stripGap [1] = [1] := by
  have h :=
    (backtrace_score_sum_roundtrip scoringBasic false (-2) none [1] [1]).2.2
      { first := [1], second := [1], gap := GAP_CODE, scores := [2], score := 2,
        identicalCount := 1, similarCount := 1, gapCount := 0, preservedCount := 1 }
      (by decide)
  exact ⟨h.1, ((h.2 (by decide) (by decide)).1 : _)⟩

/-- Counterexample to C1 as stated: the affine-global backtrace on `[1]` vs
`[1, 1]` returns alignments whose second stream, after GAP removal, is `[1]`,
not the input `[1, 1]` (the leading symbol is dropped because the recursion
stops at `i = 0`, `j = 1`); likewise the affine-local backtrace on `[1]` vs
`[2, 1]` covers only the matched subregion. -/
theorem backtrace_roundtrip_cex :
    (¬ ∀ al ∈ globalBacktrace scoringBasic false [1] [1, 1],
        stripGap al.second = [1, 1]) ∧
    ¬ ∀ al ∈ localBacktrace scoringBasic none [1] [2, 1],
        stripGap al.second = [2, 1] := by decide

/-- Claim C3 (amended): the affine-global backtrace recursion terminates
exactly at the cells with `i = 0` or `j = 0` (not only at `(0, 0)`), and the
number of alignments it reports equals the number of terminal cells whose
state is `Match` — an alignment is finalized at a terminal cell iff the state
there is `Match`. -/
theorem affine_backtrace_terminal (sc : Scoring) (fast : Bool) (fst snd : List Int)
    (fuel i j : Nat) (cur : MatrixType) (al : SequenceAlignment) :
    (∀ t ∈ affTerminals sc fast fst snd fuel i j cur, t.1 = 0 ∨ t.2.1 = 0) ∧
    (affBTF sc fast fst snd fuel i j cur al).length =
      ((affTerminals sc fast fst snd fuel i j cur).filter
        (fun t => t.2.2 = MatrixType.F)).length :=
  ⟨affTerminals_boundary sc fast fst snd fuel i j cur,
    affBTF_length_eq_terminals sc fast fst snd fuel i j cur al⟩

/-- Witness for C3 (amended) at the backtrace start cell of `[1]` vs `[1, 1]`. -/
theorem affine_backtrace_terminal_witness :
    ((0 : Nat) = 0 ∨ (1 : Nat) = 0) ∧
    (affBTF scoringBasic false [1] [1, 1] 4 1 2 MatrixType.F emptyAlignment).length =
      ((affTerminals scoringBasic false [1] [1, 1] 4 1 2 MatrixType.F).filter
        (fun t => t.2.2 = MatrixType.F)).length := by
  have h :=
    affine_backtrace_terminal scoringBasic false [1] [1, 1] 4 1 2 MatrixType.F
      emptyAlignment
  exact ⟨h.1 (0, 1, MatrixType.F) (by decide), h.2⟩

/-- Counterexample to C3 as stated: starting from the backtrace start cell
`(1, 2)` (with the wrapper's fuel `m + n + 1 = 4`) on `[1]` vs `[1, 1]`, the
recursion reaches a terminal cell `(0, 1)` with `j ≠ 0`, so it does not
terminate exclusively at `(0, 0)`. -/
theorem affine_backtrace_terminal_cex :
    ¬ ∀ t ∈ affTerminals scoringBasic false [1] [1, 1] 4 1 2 MatrixType.F,
        t.1 = 0 ∧ t.2.1 = 0 := by decide

/-- Claim C6 (amended): in the linear-gap global backtrace the gap-in-second
move (first-sequence symbol against a gap) is checked first and, when its score
equation holds, preempts the other two moves; the gap-in-first and diagonal
moves are then each explored whenever their own score equations hold, so ties
between them can produce more than one alignment; the backtrace always returns
at least one alignment. -/
theorem strict_backtrace_moves (sc : Scoring) (gapScore : Int) (fst snd : List Int) :
    (∀ fuel i j al, ¬(i = 0 ∧ j = 0) → i ≠ 0 →
      strictScore sc gapScore fst snd i j =
        strictScore sc gapScore fst snd (i - 1) j + gapScore →
      strictBTF sc gapScore fst snd (fuel + 1) i j al =
        strictBTF sc gapScore fst snd fuel (i - 1) j
          (al.push (fst.getD (i - 1) 0) al.gap
            (strictScore sc gapScore fst snd i j -
              strictScore sc gapScore fst snd (i - 1) j))) ∧
    (∀ fuel i j al, i + j < fuel →
      strictBTF sc gapScore fst snd fuel i j al ≠ []) := by
  constructor
  · intro fuel i j al h0 hi heq
    simp only [strictBTF]
    rw [if_neg h0, if_pos ⟨hi, heq⟩]
  · exact strictBTF_ne_nil sc gapScore fst snd

/-- Witness for C6 (amended) on `[1]` vs `[1]` with every substitution
penalised: the gap-in-second branch preempts, and the result is nonempty. -/
theorem strict_backtrace_moves_witness :
    strictBTF scoringAllMismatch (-1) [1] [1] 3 1 1 emptyAlignment =
      strictBTF scoringAllMismatch (-1) [1] [1] 2 0 1
        (emptyAlignment.push (List.getD [1] 0 0) emptyAlignment.gap
          (strictScore scoringAllMismatch (-1) [1] [1] 1 1 -
            strictScore scoringAllMismatch (-1) [1] [1] 0 1)) ∧
    strictBTF scoringAllMismatch (-1) [1] [1] 3 1 1 emptyAlignment ≠ [] := by
  have h := strict_backtrace_moves scoringAllMismatch (-1) [1] [1]
  exact ⟨h.1 2 1 1 emptyAlignment (by decide) (by decide) (by decide),
    h.2 3 1 1 emptyAlignment (by decide)⟩

/-- Counterexample to C6 as stated: with equal match and mismatch scores on
`[1]` vs `[2, 1]` the linear-gap backtrace explores both the gap-in-first and
the diagonal move and returns two alignments, not exactly one; and on `[1]` vs
`[1]` the source's result differs from the claim's check-order policy
(gap-in-first first, first-match-wins). -/
theorem strict_backtrace_moves_cex :
    (strictBacktrace scoringTies (-1) [1] [2, 1]).length = 2 ∧
    strictBacktrace scoringAllMismatch (-1) [1] [1] ≠
      strictClaimBacktrace scoringAllMismatch (-1) [1] [1] := by decide

/-- Claim C8: the affine-local backtrace threshold defaults to the grid-wide
maximum over all three states when no minimum score is supplied; a descent
starts at every cell whose `Match` score reaches the threshold, and its whole
result appears in the backtrace output; an alignment is finalized exactly on
reaching a cell of score 0; and a threshold exceeding every `Match` value
yields an empty alignment list, not an error. -/
theorem local_backtrace_threshold (sc : Scoring) (fst snd : List Int) (θ : Int)
    (ms : Option Int) :
    (localBacktrace sc none fst snd =
      localBacktrace sc (some (localBestScore sc fst snd)) fst snd) ∧
    ((∀ i j, i ≤ fst.length → j ≤ snd.length →
        localScore sc fst snd .F i j < θ) →
      localBacktrace sc (some θ) fst snd = []) ∧
    (∀ fuel i j cur al, localScore sc fst snd cur i j = 0 →
      localBTF sc fst snd (fuel + 1) i j cur al = [al.reversed]) ∧
    (∀ i j, i ≤ fst.length → j ≤ snd.length →
      (match ms with
        | none => localBestScore sc fst snd
        | some s => s) ≤ localScore sc fst snd .F i j →
      ∀ x ∈ localBTF sc fst snd (fst.length + snd.length + 1) i j .F emptyAlignment,
        x ∈ localBacktrace sc ms fst snd) := by
  refine ⟨rfl, fun h => ?_, fun fuel i j cur al h => ?_, fun i j hi hj hth x hx => ?_⟩
  · simp only [localBacktrace]
    refine List.flatMap_eq_nil_iff.mpr fun i hi => ?_
    refine List.flatMap_eq_nil_iff.mpr fun j hj => ?_
    rw [List.mem_range] at hi hj
    rw [if_neg (not_le.mpr (h i j (by omega) (by omega)))]
  · simp only [localBTF]
    rw [if_pos h]
  · simp only [localBacktrace, List.mem_flatMap]
    exact ⟨i, List.mem_range.mpr (by omega), j, List.mem_range.mpr (by omega),
      by rw [if_pos hth]; exact hx⟩

/-- Witness for C8 at `[1]` vs `[1]`: threshold 100 beats every `Match` value
and returns the empty list; the zero cell `(0, 0)` finalizes immediately; the
single alignment found from cell `(1, 1)` under the default threshold appears
in the backtrace output. -/
theorem local_backtrace_threshold_witness :
    localBacktrace scoringBasic (some 100) [1] [1] = [] ∧
    localBTF scoringBasic [1] [1] 1 0 0 MatrixType.F emptyAlignment =
      [emptyAlignment.reversed] ∧
    ({ first := [1], second := [1], gap := GAP_CODE, scores := [2], score := 2,
       identicalCount := 1, similarCount := 1, gapCount := 0,
       preservedCount := 1 } : SequenceAlignment) ∈
      localBacktrace scoringBasic none [1] [1] := by
  have h := local_backtrace_threshold scoringBasic [1] [1] 100 none
  refine ⟨h.2.1 fun i j hi hj => ?_, h.2.2.1 0 0 0 MatrixType.F emptyAlignment
    (by decide), h.2.2.2 1 1 (by decide) (by decide) (by decide) _ (by decide)⟩
  have hi1 : i ≤ 1 := by simpa using hi
  have hj1 : j ≤ 1 := by simpa using hj
  interval_cases i <;> interval_cases j <;> decide

/-- Counterexample to C5 as stated: with gap-open -3 and gap-extension -1
against a second sequence of length 2 the claim predicts best score
`g + (n-1)·e = -4`, but the engine reports 0, and its single alignment is the
empty one rather than a run of gap steps. -/
theorem empty_first_global_cex :
    globalBestScore scoringAffine [] [1, 1] ≠ -3 + (2 - 1) * (-1) ∧
    globalBacktrace scoringAffine false [] [1, 1] = [emptyAlignment] := by decide

end PyAlign
